import Mathlib

/-
Verification of the query/rule subsystem of a Rust static analyzer for
Solana programs.  The Lean definitions below are a shallow embedding of
the Rust sources:

  src/analyzer/span_utils.rs        (SpanExtractor, Location)
  src/analyzer/dsl/query.rs         (AstNode, AstQuery and its operators)
  src/analyzer/engine.rs            (RuleEngine::execute_rules)
  src/analyzer/rules/solana/high/unsafe_code/filters.rs
  src/analyzer/rules/solana/high/missing_signer_check/filters.rs
  src/analyzer/rules/solana/medium/duplicate_mutable_accounts/filters.rs
  src/analyzer/rules/solana/medium/division_by_zero/filters.rs

Rust strings are modelled as Lean String values viewed as character
sequences (the sources are assumed ASCII, so byte indices and character
indices coincide).  Rust operations that can panic (slice indexing) are
modelled as Option-returning functions: a `none` result models a panic.
-/

/-! ### Text utilities (model of Rust `str` operations) -/

/-- Model of Rust pattern matching at the head of a character list:
`subHasPre p l` is true when `p` is an initial segment of `l`. -/
def subHasPre : List Char → List Char → Bool
  | [], _ => true
  | _ :: _, [] => false
  | a :: as, b :: bs => a == b && subHasPre as bs

/-- Model of Rust `str::contains` for ASCII text: `containsSub p l`
is true when the character list `p` occurs contiguously inside `l`. -/
def containsSub (p : List Char) : List Char → Bool
  | [] => subHasPre p []
  | c :: t => subHasPre p (c :: t) || containsSub p t

/-- Model of Rust `s.contains(pat)`. -/
def strContains (s pat : String) : Bool :=
  containsSub pat.toList s.toList

/-- Split a character list at every newline character; the result always
has at least one (possibly empty) segment. -/
def splitNl : List Char → List (List Char)
  | [] => [[]]
  | c :: t =>
    if c == '\n' then [] :: splitNl t
    else
      match splitNl t with
      | [] => [[c]]
      | h :: r => (c :: h) :: r

/-- Remove one trailing carriage return, as Rust `str::lines` does for
lines terminated by `\r\n`. -/
def stripCr (l : List Char) : List Char :=
  if l.getLast? == some '\r' then l.dropLast else l

/-- Model of Rust `str::lines`: split on `\n`, strip a trailing `\r`
from every `\n`-terminated segment, and drop the final segment when it
is empty (a trailing newline does not open a new line; the last segment
was not `\n`-terminated so its `\r`, if any, stays). -/
def rustLines (s : String) : List String :=
  let segs := splitNl s.toList
  let init := (segs.dropLast.map stripCr).map String.mk
  match segs.getLast? with
  | some [] => init
  | some l => init ++ [String.mk l]
  | none => init

/-- Checked model of the Rust slice `s[a..b]` on ASCII text: `none`
models the panic raised when `a > b` or `b > s.len()`. -/
def slice? (s : String) (a b : Nat) : Option String :=
  if a ≤ b ∧ b ≤ s.length then some (String.mk ((s.toList.drop a).take (b - a)))
  else none

/-- Total substring extraction used to state specifications. -/
def strSlice (s : String) (a b : Nat) : String :=
  String.mk ((s.toList.drop a).take (b - a))

/-! ### Data model: spans, locations, severities, findings
(src/analyzer/mod.rs and src/analyzer/span_utils.rs) -/

/-- Model of a `proc_macro2::Span` as its start/end line-column pairs:
lines are 1-indexed (0 meaning "no position data"), columns 0-indexed. -/
structure Span where
  startLine : Nat
  startColumn : Nat
  endLine : Nat
  endColumn : Nat
deriving Repr, DecidableEq

/-- Model of `crate::analyzer::Location`. -/
structure Location where
  file : String
  line : Nat
  column : Option Nat
  endLine : Option Nat
  endColumn : Option Nat
deriving Repr, DecidableEq

/-- Model of `crate::analyzer::Severity`. -/
inductive Severity where
  | high
  | medium
  | low
  | informational
deriving Repr, DecidableEq

/-- Model of `crate::analyzer::Finding`.  The code snippet is kept as a
String (`None` is never produced by the embedded operations). -/
structure Finding where
  description : String
  severity : Severity
  location : Location
  codeSnippet : Option String
deriving Repr, DecidableEq

/-! ### Span mapper (src/analyzer/span_utils.rs) -/

/-- Translation of `SpanExtractor::span_to_location`. -/
def spanToLocation (filePath : String) (sp : Span) : Location :=
  if 0 < sp.startLine then
    { file := filePath, line := sp.startLine, column := some sp.startColumn,
      endLine := some sp.endLine, endColumn := some sp.endColumn }
  else
    { file := filePath, line := 1, column := none, endLine := none, endColumn := none }

def snippetUnavailable : String := "// Code snippet unavailable"

def snippetOutOfBounds : String := "// Code snippet out of bounds"

/-- The interior-lines loop of the multi-line branch of
`span_to_snippet`: for `line_idx` in `[a, b)`, append the line and a
newline when `line_idx` is in bounds. -/
def midLines (lines : List String) (a b : Nat) : String :=
  ((List.range b).drop a).foldl
    (fun acc i => if i < lines.length then acc ++ lines.getD i "" ++ "\n" else acc) ""

/-- Translation of `SpanExtractor::span_to_snippet`.  Every Rust slice
expression is modelled by the checked `slice?`; a `none` result models
a panic.  List indexing `lines[i]` is modelled by `getElem?` at the
places where the source indexes after a bounds test. -/
def spanToSnippet (sourceCode : String) (sp : Span) : Option String :=
  if sp.startLine = 0 ∨ sp.endLine = 0 then some snippetUnavailable
  else
    let lines := rustLines sourceCode
    if lines.length < sp.startLine ∨ lines.length < sp.endLine then some snippetOutOfBounds
    else
      let startLineIdx := sp.startLine - 1
      let endLineIdx := min (sp.endLine - 1) (lines.length - 1)
      if startLineIdx = endLineIdx then
        match lines[startLineIdx]? with
        | none => none
        | some line =>
          if sp.startColumn < line.length ∧ sp.endColumn ≤ line.length then
            slice? line sp.startColumn (min sp.endColumn line.length)
          else some line
      else
        let part1 : Option String :=
          if startLineIdx < lines.length then
            match lines[startLineIdx]? with
            | none => none
            | some firstLine =>
              if sp.startColumn < firstLine.length then
                (slice? firstLine sp.startColumn firstLine.length).map (· ++ "\n")
              else some (firstLine ++ "\n")
          else some ""
        let mid := midLines lines (startLineIdx + 1) endLineIdx
        let part3 : Option String :=
          if endLineIdx < lines.length ∧ endLineIdx ≠ startLineIdx then
            match lines[endLineIdx]? with
            | none => none
            | some lastLine =>
              if sp.endColumn ≤ lastLine.length then slice? lastLine 0 sp.endColumn
              else some lastLine
          else some ""
        match part1, part3 with
        | some p1, some p3 => some (p1 ++ mid ++ p3)
        | _, _ => none

/-- Translation of `Location::format_location`.  The first Rust match
arm carries the guard `end_line != line`; the guarded match is written
as a nested conditional. -/
def Location.formatLocation (loc : Location) : String :=
  match loc.column, loc.endLine, loc.endColumn with
  | some col, some el, some ec =>
    if el ≠ loc.line then
      loc.file ++ ":" ++ toString loc.line ++ ":" ++ toString col ++ "-" ++
        toString el ++ ":" ++ toString ec
    else
      loc.file ++ ":" ++ toString loc.line ++ ":" ++ toString col ++ "-" ++ toString ec
  | some col, none, some ec =>
    loc.file ++ ":" ++ toString loc.line ++ ":" ++ toString col ++ "-" ++ toString ec
  | some col, _, none =>
    loc.file ++ ":" ++ toString loc.line ++ ":" ++ toString col
  | none, _, _ =>
    loc.file ++ ":" ++ toString loc.line

/-! ### AST model (the fragment of `syn` that the analyzer inspects)

The analyzer works on `syn::File` trees.  The model below covers the
constructors the analyzer's code distinguishes; every other syntactic
form is collapsed into an explicit `other` constructor that the Rust
code reaches through a `_` match arm.  Nodes whose spans the analyzer
extracts carry an explicit `Span` field (in `syn` every node can report
its span). -/

/-- Model of `syn::Lit`, keeping the data the analyzer reads:
`base10_digits()` of integer and float literals. -/
inductive LitKind where
  | int (digits : String)
  | float (digits : String)
  | otherLit
deriving Repr, DecidableEq

/-- Model of `syn::BinOp`, distinguishing the operators the analyzer
tests for (`Div`, `Sub`); everything else is `otherOp`. -/
inductive BinOp where
  | div
  | sub
  | otherOp
deriving Repr, DecidableEq

mutual
/-- Model of `syn::Expr` (the variants the analyzer distinguishes).
`path` stores the result of `Path::get_ident()`: `some name` for a
single-segment path, `none` for a multi-segment path.  `otherE` stands
for any leaf expression form the analyzer never inspects. -/
inductive RExpr where
  | lit (k : LitKind)
  | path (ident : Option String)
  | call (f : RExpr) (args : RExprList)
  | methodCall (recv : RExpr) (method : String) (args : RExprList)
  | fieldAcc (base : RExpr)
  | paren (e : RExpr)
  | binary (op : BinOp) (lhs rhs : RExpr)
  | unsafeB (body : RBlock)
  | unary (e : RExpr)
  | otherE

/-- Cons-list of expressions (function-call arguments), kept mutual so
that structural induction over the tree is available. -/
inductive RExprList where
  | nil
  | cons (e : RExpr) (t : RExprList)

/-- Model of `syn::Stmt`.  `localS` is a `let` binding: the pattern is
`some name` when it is `Pat::Ident(name)`, and `init` is the optional
initializer expression.  `itemFnS` is a nested `fn` item. -/
inductive RStmt where
  | localS (pat : Option String) (init : Option RExpr)
  | exprS (e : RExpr)
  | itemFnS (f : RFn)
  | otherS

/-- Cons-list of statements. -/
inductive RStmtList where
  | nil
  | cons (s : RStmt) (t : RStmtList)

/-- Model of `syn::Block`. -/
inductive RBlock where
  | mk (span : Span) (stmts : RStmtList)

/-- Model of `syn::ItemFn` and `syn::ImplItemFn` (both carry a
signature with an optional `unsafe` qualifier, a visibility, and a
body block; only these parts are read by the analyzer). -/
inductive RFn where
  | mk (ident : String) (isPub : Bool) (sigUnsafety : Bool) (body : RBlock) (span : Span)
end

def RBlock.span : RBlock → Span
  | .mk sp _ => sp

def RBlock.stmts : RBlock → RStmtList
  | .mk _ s => s

def RFn.ident : RFn → String
  | .mk i _ _ _ _ => i

def RFn.isPub : RFn → Bool
  | .mk _ p _ _ _ => p

def RFn.sigUnsafety : RFn → Bool
  | .mk _ _ u _ _ => u

def RFn.body : RFn → RBlock
  | .mk _ _ _ b _ => b

def RFn.span : RFn → Span
  | .mk _ _ _ _ sp => sp

def RStmtList.toList : RStmtList → List RStmt
  | .nil => []
  | .cons s t => s :: RStmtList.toList t

def RExprList.toList : RExprList → List RExpr
  | .nil => []
  | .cons e t => e :: RExprList.toList t

/-- Model of `syn::Meta` as read by the analyzer: a `Meta::List` keeps
the path (as the identifier text tested by `path.is_ident(..)`) and the
token text (`tokens.to_string()`); other meta forms are never inspected
beyond their path, which the analyzer's relevant code paths do not
match, so they collapse to `otherMeta`. -/
inductive RMeta where
  | list (path : String) (tokens : String)
  | otherMeta
deriving Repr, DecidableEq

/-- Model of `syn::Field`: optional identifier, attributes, and the
token text of the type (`quote!(#ty).to_string()`). -/
structure RField where
  ident : Option String
  attrs : List RMeta
  tyTokens : String
deriving Repr, DecidableEq

/-- Model of `syn::Fields`. -/
inductive RFields where
  | named (fields : List RField)
  | unnamed
  | unit
deriving Repr, DecidableEq

/-- Model of `syn::ItemStruct`. -/
structure RStruct where
  ident : String
  attrs : List RMeta
  fields : RFields
  span : Span
deriving Repr, DecidableEq

/-- Model of `syn::ItemEnum` (only its identifier and span are read). -/
structure REnum where
  ident : String
  span : Span
deriving Repr, DecidableEq

/-- Model of `syn::ImplItem`: only `ImplItem::Fn` is inspected. -/
inductive RImplItem where
  | fnII (f : RFn)
  | otherII

/-- Model of `syn::Item` (the variants traversed by the analyzer).
`modI` carries `Option` content: `some items` for an inline module,
`none` for a module defined in an external file. -/
inductive RItem where
  | fnI (f : RFn)
  | modI (ident : String) (content : Option (List RItem))
  | implI (items : List RImplItem)
  | structI (s : RStruct)
  | enumI (e : REnum)
  | otherI

/-- Model of `syn::File`. -/
structure RFile where
  span : Span
  items : List RItem

/-! ### Node model and query engine (src/analyzer/dsl/query.rs) -/

/-- Model of `NodeType`. -/
inductive NodeType where
  | fileT
  | functionT
  | structT
  | enumT
  | blockT
  | expressionT
  | otherT
deriving Repr, DecidableEq

/-- Model of `NodeData`.  The Rust enum also has an `Expression`
variant; no code path in the analyzer ever constructs it (there is no
`from_expression` constructor and no query produces expression nodes),
so it is omitted from the model.  `Function` and `ImplFunction` both
wrap the common function model `RFn`. -/
inductive NodeData where
  | fileD (f : RFile)
  | functionD (f : RFn)
  | implFunctionD (f : RFn)
  | structD (s : RStruct)
  | enumD (e : REnum)
  | blockD (b : RBlock)
  | otherD

/-- Model of `AstNode`. -/
structure AstNode where
  nodeType : NodeType
  data : NodeData
  name : Option String

/-- Translation of `AstNode::from_file`. -/
def AstNode.fromFile (f : RFile) : AstNode :=
  { nodeType := .fileT, data := .fileD f, name := none }

/-- Translation of `AstNode::from_function`. -/
def AstNode.fromFunction (f : RFn) : AstNode :=
  { nodeType := .functionT, data := .functionD f, name := some f.ident }

/-- Translation of `AstNode::from_impl_function`. -/
def AstNode.fromImplFunction (f : RFn) : AstNode :=
  { nodeType := .functionT, data := .implFunctionD f, name := some f.ident }

/-- Translation of `AstNode::from_struct`. -/
def AstNode.fromStruct (s : RStruct) : AstNode :=
  { nodeType := .structT, data := .structD s, name := some s.ident }

/-- Translation of `AstNode::snippet` (the cheap placeholder text; the
final `_` arm of the Rust match covers `File` and `Other`). -/
def AstNode.snippet (n : AstNode) : String :=
  match n.data with
  | .functionD f => "fn " ++ f.ident ++ "(...)"
  | .implFunctionD f => "fn " ++ f.ident ++ "(...)"
  | .structD s => "struct " ++ s.ident
  | .enumD e => "enum " ++ e.ident
  | .blockD _ => "\x7b ... \x7d"
  | _ => "..."

/-- Translation of `AstNode::get_spanned_node`, at the level of the
span the returned `&dyn Spanned` reports: every variant except `Other`
yields its span. -/
def NodeData.spanOf : NodeData → Option Span
  | .fileD f => some f.span
  | .functionD f => some f.span
  | .implFunctionD f => some f.span
  | .structD s => some s.span
  | .enumD e => some e.span
  | .blockD b => some b.span
  | .otherD => none

/-- Model of `AstQuery`: the ordered list of result nodes. -/
structure AstQuery where
  results : List AstNode

/-- Translation of `AstQuery::new`. -/
def AstQuery.new (ast : RFile) : AstQuery :=
  { results := [AstNode.fromFile ast] }

/-- Translation of `AstQuery::from_nodes`. -/
def AstQuery.fromNodes (nodes : List AstNode) : AstQuery :=
  { results := nodes }

/-- Translation of `AstQuery::extract_functions_recursive`: collects
`fn` items, recurses into inline modules (skipping external-file
modules), and collects the `fn` items of `impl` blocks. -/
def extractFunctionsRec : List RItem → List AstNode
  | [] => []
  | .fnI f :: rest => AstNode.fromFunction f :: extractFunctionsRec rest
  | .modI _ (some content) :: rest => extractFunctionsRec content ++ extractFunctionsRec rest
  | .modI _ none :: rest => extractFunctionsRec rest
  | .implI implItems :: rest =>
    (implItems.filterMap fun
      | .fnII f => some (AstNode.fromImplFunction f)
      | .otherII => none) ++ extractFunctionsRec rest
  | .structI _ :: rest => extractFunctionsRec rest
  | .enumI _ :: rest => extractFunctionsRec rest
  | .otherI :: rest => extractFunctionsRec rest

/-- Translation of `AstQuery::functions`: only `File` results
contribute, each replaced by its recursively extracted functions. -/
def AstQuery.functions (q : AstQuery) : AstQuery :=
  { results :=
      (q.results.map fun node =>
        match node.data with
        | .fileD f => extractFunctionsRec f.items
        | _ => []).flatten }

/-- Translation of `AstQuery::structs`: top-level struct items directly
under each `File` result. -/
def AstQuery.structs (q : AstQuery) : AstQuery :=
  { results :=
      (q.results.map fun node =>
        match node.data with
        | .fileD f =>
          f.items.filterMap fun
            | .structI s => some (AstNode.fromStruct s)
            | _ => none
        | _ => []).flatten }

/-- The `Stmt::Expr(Expr::Unsafe(_), _)` pattern of the Rust source. -/
def stmtIsUnsafeExpr : RStmt → Bool
  | .exprS (.unsafeB _) => true
  | _ => false

/-- The per-node push loop of the inherent method
`AstQuery::uses_unsafe` (src/analyzer/dsl/query.rs, lines 260-296):
`Function`/`ImplFunction` results are kept when their signature carries
`unsafe`; `Block` results are kept when some top-level statement is an
unsafe-block expression; all other results are dropped. -/
def usesUnsafeGo : List AstNode → List AstNode
  | [] => []
  | node :: rest =>
    match node.data with
    | .functionD f => if f.sigUnsafety then node :: usesUnsafeGo rest else usesUnsafeGo rest
    | .implFunctionD f => if f.sigUnsafety then node :: usesUnsafeGo rest else usesUnsafeGo rest
    | .blockD b =>
      if (RStmtList.toList b.stmts).any stmtIsUnsafeExpr then node :: usesUnsafeGo rest
      else usesUnsafeGo rest
    | _ => usesUnsafeGo rest

/-- Translation of the inherent method `AstQuery::uses_unsafe`.  Note:
this is the method a call `query.uses_unsafe()` resolves to, because
Rust gives inherent methods precedence over the trait method of the
same name declared in
src/analyzer/rules/solana/high/unsafe_code/filters.rs. -/
def AstQuery.usesUnsafe (q : AstQuery) : AstQuery :=
  { results := usesUnsafeGo q.results }

/-- Translation of `AstQuery::or`: plain concatenation. -/
def AstQuery.or (q other : AstQuery) : AstQuery :=
  { results := q.results ++ other.results }

/-- Translation of `AstQuery::not`: the placeholder implementation
always returns an empty result set. -/
def AstQuery.not (_q : AstQuery) : AstQuery :=
  { results := [] }

/-- Translation of `AstQuery::exists`. -/
def AstQuery.exists (q : AstQuery) : Bool :=
  !q.results.isEmpty

/-- Translation of `AstQuery::count`. -/
def AstQuery.count (q : AstQuery) : Nat :=
  q.results.length

/-- A single-quote character, written once for reuse in the
`format!` translations below. -/
def sQuote : String := "\x27"

/-- Translation of `AstQuery::create_fallback_location`. -/
def fallbackLocation (filePath : String) : Location :=
  { file := filePath, line := 1, column := none, endLine := none, endColumn := none }

/-- Translation of `AstQuery::to_findings`: one finding per result, in
order, each with the argument severity, the fallback location, and the
node's placeholder snippet. -/
def AstQuery.toFindings (q : AstQuery) (severity : Severity) (message filePath : String) :
    List Finding :=
  q.results.map fun node =>
    let description :=
      match node.name with
      | some name => message ++ " in " ++ sQuote ++ name ++ sQuote
      | none => message
    { description := description, severity := severity,
      location := fallbackLocation filePath, codeSnippet := some (AstNode.snippet node) }

/-- Model of `SpanExtractor` (its construction captures the source text
and the file path). -/
structure SpanExtractor where
  sourceCode : String
  filePath : String

/-- Translation of `SpanExtractor::extract_location` applied to the
span reported by a node. -/
def SpanExtractor.extractLocation (ex : SpanExtractor) (sp : Span) : Location :=
  spanToLocation ex.filePath sp

/-- Translation of `SpanExtractor::extract_snippet` applied to the span
reported by a node (`none` models a panic inside snippet slicing). -/
def SpanExtractor.extractSnippet (ex : SpanExtractor) (sp : Span) : Option String :=
  spanToSnippet ex.sourceCode sp

/-- Option-threaded list map: models a Rust iterator `map` whose body
may panic (`none` aborts the whole traversal, as a panic would). -/
def optionTraverse (f : α → Option β) : List α → Option (List β)
  | [] => some []
  | a :: t =>
    match f a, optionTraverse f t with
    | some b, some bs => some (b :: bs)
    | _, _ => none

/-- Translation of `AstQuery::to_findings_with_span_extractor`: for
every node with a spanned underlying reference the span extractor
provides location and snippet; for `Other` nodes the fallback location
and the placeholder snippet are used. -/
def AstQuery.toFindingsWithSpanExtractor (q : AstQuery) (severity : Severity)
    (title description filePath : String) (ex : SpanExtractor) : Option (List Finding) :=
  optionTraverse
    (fun node =>
      let locSnip? : Option (Location × String) :=
        match NodeData.spanOf node.data with
        | some sp =>
          match SpanExtractor.extractSnippet ex sp with
          | some snip => some (SpanExtractor.extractLocation ex sp, snip)
          | none => none
        | none => some (fallbackLocation filePath, AstNode.snippet node)
      locSnip?.map fun ls =>
        let findingDescription :=
          match node.name with
          | some name => title ++ " in " ++ sQuote ++ name ++ sQuote ++ ". " ++ description
          | none => title ++ ": " ++ description
        { description := findingDescription, severity := severity,
          location := ls.1, codeSnippet := some ls.2 })
    q.results

/-! ### Unsafe-code filter
(src/analyzer/rules/solana/high/unsafe_code/filters.rs)

The `UnsafeVisitor` of `has_unsafe_in_block` sets its flag when it
visits an `Expr::Unsafe` anywhere below the block, or when it visits a
nested `ItemFn` whose signature is `unsafe` (the outer function's own
signature is never visited, since the walk starts at its block). -/

mutual
/-- The `UnsafeVisitor` restricted to one expression subtree. -/
def exprHasUnsafeV : RExpr → Bool
  | .lit _ => false
  | .path _ => false
  | .call f args => exprHasUnsafeV f || exprListHasUnsafeV args
  | .methodCall recv _ args => exprHasUnsafeV recv || exprListHasUnsafeV args
  | .fieldAcc base => exprHasUnsafeV base
  | .paren e => exprHasUnsafeV e
  | .binary _ lhs rhs => exprHasUnsafeV lhs || exprHasUnsafeV rhs
  | .unsafeB _ => true
  | .unary e => exprHasUnsafeV e
  | .otherE => false

def exprListHasUnsafeV : RExprList → Bool
  | .nil => false
  | .cons e t => exprHasUnsafeV e || exprListHasUnsafeV t

def stmtHasUnsafeV : RStmt → Bool
  | .localS _ (some e) => exprHasUnsafeV e
  | .localS _ none => false
  | .exprS e => exprHasUnsafeV e
  | .itemFnS (.mk _ _ sigU body _) => sigU || blockHasUnsafeV body
  | .otherS => false

def stmtListHasUnsafeV : RStmtList → Bool
  | .nil => false
  | .cons s t => stmtHasUnsafeV s || stmtListHasUnsafeV t

def blockHasUnsafeV : RBlock → Bool
  | .mk _ stmts => stmtListHasUnsafeV stmts
end

/-- Translation of `has_unsafe_in_block`. -/
def hasUnsafeInBlock (b : RBlock) : Bool :=
  blockHasUnsafeV b

/-- The per-node push loop of the trait method
`UnsafeCodeFilters::uses_unsafe`: `Function`/`ImplFunction` results are
kept when their body contains unsafe code; everything else is dropped.
The signature of the function itself is not consulted. -/
def usesUnsafeBodyGo : List AstNode → List AstNode
  | [] => []
  | node :: rest =>
    match node.data with
    | .functionD f =>
      if hasUnsafeInBlock f.body then node :: usesUnsafeBodyGo rest else usesUnsafeBodyGo rest
    | .implFunctionD f =>
      if hasUnsafeInBlock f.body then node :: usesUnsafeBodyGo rest else usesUnsafeBodyGo rest
    | _ => usesUnsafeBodyGo rest

/-- Translation of the trait method `UnsafeCodeFilters::uses_unsafe`.
A call `query.uses_unsafe()` does NOT resolve to this method (the
inherent `AstQuery::uses_unsafe` shadows it), so the rule built in
src/analyzer/rules/solana/high/unsafe_code/mod.rs never executes it. -/
def UnsafeCodeFilters.usesUnsafe (q : AstQuery) : AstQuery :=
  AstQuery.fromNodes (usesUnsafeBodyGo q.results)

/-! ### Duplicate-mutable-accounts filter
(src/analyzer/rules/solana/medium/duplicate_mutable_accounts/filters.rs) -/

/-- First pass of `has_duplicate_mutable_accounts`: collect the token
text of every `#[account(..)]` attribute that contains `constraint`,
over all fields in order. -/
def collectConstraints (fields : List RField) : List String :=
  fields.foldl
    (fun acc f =>
      acc ++ f.attrs.filterMap fun
        | .list p toks =>
          if p == "account" then
            if strContains toks "constraint" then some toks else none
          else none
        | .otherMeta => none)
    []

/-- One step of the per-field attribute loop of the second pass: a
`#[account(..)]` attribute extends the accumulated `is_mutable` and
`has_field_constraint` flags, any other attribute leaves them as they
are. -/
def fieldFlagsStep (flags : Bool × Bool) (m : RMeta) : Bool × Bool :=
  match m with
  | .list p toks =>
    if p == "account" then
      (flags.1 || strContains toks "mut",
       flags.2 || strContains toks "constraint" || strContains toks "seeds" ||
         strContains toks "bump" || strContains toks "!=" || strContains toks "key()")
    else flags
  | .otherMeta => flags

/-- The per-field attribute loop of the second pass: accumulates the
`is_mutable` and `has_field_constraint` flags over the field's
`#[account(..)]` attributes. -/
def fieldFlags (f : RField) : Bool × Bool :=
  f.attrs.foldl fieldFlagsStep (false, false)

/-- The sibling-constraint step: a mutable field without a constraint
of its own is also considered constrained when some collected
constraint text mentions the field's name together with `!=`. -/
def fieldConstrainedFinal (allConstraints : List String) (f : RField) : Bool :=
  let flags := fieldFlags f
  if flags.1 && !flags.2 then
    match f.ident with
    | some fieldName =>
      allConstraints.any fun c => strContains c fieldName && strContains c "!="
    | none => false
  else flags.2

/-- One step of the counting loop of the second pass: a mutable field
bumps the mutable-account count, and additionally the
with-constraints count when it carries (or inherits) a constraint. -/
def dupCountStep (allConstraints : List String) (c : Nat × Nat) (f : RField) : Nat × Nat :=
  let flags := fieldFlags f
  if flags.1 then
    (c.1 + 1, if fieldConstrainedFinal allConstraints f then c.2 + 1 else c.2)
  else c

/-- Translation of the body of
`DuplicateMutableAccountsFilters::has_duplicate_mutable_accounts` for
one struct: count mutable fields and mutable fields with constraints,
and report when there are at least two mutable fields and the two
counts differ. -/
def hasDuplicateMutableAccountsStruct (s : RStruct) : Bool :=
  match s.fields with
  | .named fields =>
    let allConstraints := collectConstraints fields
    let counts := fields.foldl (dupCountStep allConstraints) (0, 0)
    decide (2 ≤ counts.1) && counts.1 != counts.2
  | _ => false

/-- The query-level filter: struct results satisfying the predicate are
kept in order, all other results are dropped. -/
def DuplicateMutableAccountsFilters.hasDuplicateMutableAccounts (q : AstQuery) : AstQuery :=
  AstQuery.fromNodes
    (q.results.filter fun node =>
      match node.data with
      | .structD s => hasDuplicateMutableAccountsStruct s
      | _ => false)

/-! ### Division-by-zero filter
(src/analyzer/rules/solana/medium/division_by_zero/filters.rs)

`UnsafeDivisionFinder` is a `syn` visitor with two pieces of state: a
`found` flag and the map `safe_variables` of local variables assigned a
non-zero numeric literal (modelled as a list of names; only membership
is ever queried).  `visit_local` records the variable before walking
the initializer; `visit_expr_binary` tests the divisor of a division
against the current state before walking the operands; statements are
walked in order and the traversal also descends into nested `fn` items
(the default `visit_stmt`/`visit_item_fn` behaviour). -/

/-- The visitor state: `found` and `safe_variables`. -/
structure DzState where
  found : Bool
  safe : List String
deriving Repr, DecidableEq

/-- Translation of the literal test of `visit_local`: does a `let`
initializer literal register the variable as known non-zero? -/
def litTracksNonZero : LitKind → Bool
  | .int digits => digits != "0"
  | .float digits => digits != "0" && digits != "0.0"
  | .otherLit => false

/-- Translation of `UnsafeDivisionFinder::is_potentially_dangerous`,
with the safe-variable map passed explicitly. -/
def isPotentiallyDangerous (safe : List String) : RExpr → Bool
  | .lit (.int digits) => digits == "0"
  | .lit (.float digits) => digits == "0.0" || digits == "0"
  | .lit .otherLit => false
  | .path (some ident) => !(safe.contains ident)
  | .path none => true
  | .call _ _ => true
  | .fieldAcc _ => true
  | .binary op _ _ => op == BinOp.sub
  | _ => false

/-- The variable-recording step of the custom `visit_local`: a `let`
with an identifier pattern and a non-zero numeric literal initializer
adds the variable to the safe map; anything else leaves the state
unchanged. -/
def dzLocalState (st : DzState) (pat : Option String) (init : Option RExpr) : DzState :=
  match pat, init with
  | some varName, some (.lit k) =>
    if litTracksNonZero k then { st with safe := varName :: st.safe } else st
  | _, _ => st

mutual
/-- The visitor on one expression: pre-order, with the division test
performed before the operands are walked. -/
def dzExpr (st : DzState) : RExpr → DzState
  | .lit _ => st
  | .path _ => st
  | .call f args => dzExprList (dzExpr st f) args
  | .methodCall recv _ args => dzExprList (dzExpr st recv) args
  | .fieldAcc base => dzExpr st base
  | .paren e => dzExpr st e
  | .binary op lhs rhs =>
    let st1 :=
      if op == BinOp.div && isPotentiallyDangerous st.safe rhs then
        { st with found := true }
      else st
    dzExpr (dzExpr st1 lhs) rhs
  | .unsafeB body => dzBlock st body
  | .unary e => dzExpr st e
  | .otherE => st

def dzExprList (st : DzState) : RExprList → DzState
  | .nil => st
  | .cons e t => dzExprList (dzExpr st e) t

/-- The visitor on one statement; `localS` is the custom `visit_local`
(record the variable via `dzLocalState`, then walk the initializer). -/
def dzStmt (st : DzState) : RStmt → DzState
  | .localS pat init =>
    let st1 := dzLocalState st pat init
    match init with
    | some e => dzExpr st1 e
    | none => st1
  | .exprS e => dzExpr st e
  | .itemFnS (.mk _ _ _ body _) => dzBlock st body
  | .otherS => st

def dzStmtList (st : DzState) : RStmtList → DzState
  | .nil => st
  | .cons s t => dzStmtList (dzStmt st s) t

def dzBlock (st : DzState) : RBlock → DzState
  | .mk _ stmts => dzStmtList st stmts
end

/-- Translation of the per-function body of
`DivisionByZeroFilters::has_unsafe_divisions`: run the finder over the
function's block with empty initial state and read the flag. -/
def fnHasUnsafeDivisions (f : RFn) : Bool :=
  (dzBlock { found := false, safe := [] } f.body).found

/-- The query-level filter `has_unsafe_divisions`:
`Function`/`ImplFunction` results whose body contains a division with a
potentially dangerous divisor are kept; everything else is dropped. -/
def DivisionByZeroFilters.hasUnsafeDivisions (q : AstQuery) : AstQuery :=
  AstQuery.fromNodes
    (q.results.filter fun node =>
      match node.data with
      | .functionD f => fnHasUnsafeDivisions f
      | .implFunctionD f => fnHasUnsafeDivisions f
      | _ => false)

/-! A declarative companion of the finder: walk the tree in the same
order, but instead of a flag, return the final safe-variable list
together with the list of `(safe variables in scope, divisor)` pairs,
one per division encountered.  The theorem `dzExprSpec` below proves
the finder's flag equal to "some collected divisor is potentially
dangerous in its recorded scope". -/

mutual
def dzCollectExpr (safe : List String) : RExpr → List String × List (List String × RExpr)
  | .lit _ => (safe, [])
  | .path _ => (safe, [])
  | .call f args =>
    let a := dzCollectExpr safe f
    let b := dzCollectExprList a.1 args
    (b.1, a.2 ++ b.2)
  | .methodCall recv _ args =>
    let a := dzCollectExpr safe recv
    let b := dzCollectExprList a.1 args
    (b.1, a.2 ++ b.2)
  | .fieldAcc base => dzCollectExpr safe base
  | .paren e => dzCollectExpr safe e
  | .binary op lhs rhs =>
    let here := if op == BinOp.div then [(safe, rhs)] else []
    let a := dzCollectExpr safe lhs
    let b := dzCollectExpr a.1 rhs
    (b.1, here ++ a.2 ++ b.2)
  | .unsafeB body => dzCollectBlock safe body
  | .unary e => dzCollectExpr safe e
  | .otherE => (safe, [])

def dzCollectExprList (safe : List String) :
    RExprList → List String × List (List String × RExpr)
  | .nil => (safe, [])
  | .cons e t =>
    let a := dzCollectExpr safe e
    let b := dzCollectExprList a.1 t
    (b.1, a.2 ++ b.2)

def dzCollectStmt (safe : List String) : RStmt → List String × List (List String × RExpr)
  | .localS pat init =>
    let safe1 := (dzLocalState { found := false, safe := safe } pat init).safe
    match init with
    | some e => dzCollectExpr safe1 e
    | none => (safe1, [])
  | .exprS e => dzCollectExpr safe e
  | .itemFnS (.mk _ _ _ body _) => dzCollectBlock safe body
  | .otherS => (safe, [])

def dzCollectStmtList (safe : List String) :
    RStmtList → List String × List (List String × RExpr)
  | .nil => (safe, [])
  | .cons s t =>
    let a := dzCollectStmt safe s
    let b := dzCollectStmtList a.1 t
    (b.1, a.2 ++ b.2)

def dzCollectBlock (safe : List String) : RBlock → List String × List (List String × RExpr)
  | .mk _ stmts => dzCollectStmtList safe stmts
end

/-- The divisors a function's body is scanned over, each with the
safe-variable list in scope at its division. -/
def fnDivisors (f : RFn) : List (List String × RExpr) :=
  (dzCollectBlock [] f.body).2

/-! ### Missing-signer-check filter
(src/analyzer/rules/solana/high/missing_signer_check/filters.rs)

The primary path re-parses the struct with the external `anchor-syn`
crate and inspects the resulting typed account fields; that crate is an
external collaborator, so its classification of a field's type and its
`signer` constraint detection are modelled from the spec below.  The
gate `is_accounts_struct`, the fallback analysis and the overall
control flow are translations of the repository's own code. -/

/-- Translation of `is_accounts_struct`: some attribute whose path is
`derive` and whose token text contains `Accounts`.  (The source tests
`attr.meta.to_token_stream()`, which for a `derive` list is the text
`derive (..)`; for such attributes containing `Accounts` is equivalent
to the list's own tokens containing it.) -/
def isAccountsStruct (s : RStruct) : Bool :=
  s.attrs.any fun
    | .list p toks => p == "derive" && strContains toks "Accounts"
    | .otherMeta => false

/-- Translation of `has_signer_constraint`: some `#[account(..)]`
attribute whose token text contains `signer`. -/
def hasSignerConstraint (attrs : List RMeta) : Bool :=
  attrs.any fun
    | .list p toks => p == "account" && strContains toks "signer"
    | .otherMeta => false

/-- Modelled from the spec: the typed account classification performed
by the external `anchor-syn` accounts parser (`anchor_syn::Ty`), which
recognises the Anchor account wrapper types by the head identifier of
the field's type text. -/
inductive AnchorTy where
  | accountInfo
  | uncheckedAccount
  | systemAccount
  | signerTy
  | accountTy
  | accountLoader
  | programTy
  | sysvarTy
deriving Repr, DecidableEq

/-- The leading identifier of a type's token text. -/
def headIdent (s : String) : String :=
  String.mk (s.toList.takeWhile fun c => c.isAlphanum || c == '_')

/-- Modelled from the spec: `anchor-syn`'s parse of one field type.  A
type it does not recognise makes the whole conversion fail (`none`),
sending `has_missing_signer_checks` to its fallback path. -/
def classifyAnchorTy (tyTokens : String) : Option AnchorTy :=
  let h := headIdent tyTokens
  if h == "AccountInfo" then some .accountInfo
  else if h == "UncheckedAccount" then some .uncheckedAccount
  else if h == "SystemAccount" then some .systemAccount
  else if h == "Signer" then some .signerTy
  else if h == "AccountLoader" then some .accountLoader
  else if h == "Account" then some .accountTy
  else if h == "Program" then some .programTy
  else if h == "Sysvar" then some .sysvarTy
  else none

/-- Modelled from the spec: `convert_to_anchor_struct_optimized`, kept
at the granularity the caller relies on — per field, the parsed account
type together with the `is_signer()` constraint flag (a signer-bearing
`#[account(..)]` attribute). -/
def convertFieldsToAnchor (fields : List RField) :
    Option (List (AnchorTy × Bool)) :=
  optionTraverse
    (fun f => (classifyAnchorTy f.tyTokens).map fun ty => (ty, hasSignerConstraint f.attrs))
    fields

/-- Translation of `field_needs_signer_check` (fallback path): no
signer-bearing attribute, and a type text mentioning one of the
unchecked wrapper types, or `Account` other than `AccountLoader`. -/
def fieldNeedsSignerCheck (f : RField) : Bool :=
  if hasSignerConstraint f.attrs then false
  else
    strContains f.tyTokens "AccountInfo" ||
    strContains f.tyTokens "UncheckedAccount" ||
    strContains f.tyTokens "SystemAccount" ||
    (strContains f.tyTokens "Account" && !strContains f.tyTokens "AccountLoader")

/-- Translation of `has_missing_signer_checks_fallback`: some named
field (named fields always carry an identifier) needs a signer check. -/
def hasMissingSignerChecksFallback (s : RStruct) : Bool :=
  match s.fields with
  | .named fields => fields.any fun f => f.ident.isSome && fieldNeedsSignerCheck f
  | _ => false

/-- The vulnerable-type test of the primary path: `AccountInfo`,
`UncheckedAccount` or `SystemAccount` without a signer constraint. -/
def anchorFieldVulnerable (af : AnchorTy × Bool) : Bool :=
  (af.1 == AnchorTy.accountInfo || af.1 == AnchorTy.uncheckedAccount ||
    af.1 == AnchorTy.systemAccount) && !af.2

/-- Translation of `has_missing_signer_checks`: structs without an
`Accounts` derive are never flagged; otherwise the anchor-syn parse is
attempted, its typed fields are scanned for an unchecked wrapper type
without a signer constraint, and on parse failure the syn-level
fallback runs.  (Non-named-field structs produce no account fields on
either path.) -/
def hasMissingSignerChecks (s : RStruct) : Bool :=
  if !isAccountsStruct s then false
  else
    match s.fields with
    | .named fields =>
      match convertFieldsToAnchor fields with
      | some anchorFields => anchorFields.any anchorFieldVulnerable
      | none => hasMissingSignerChecksFallback s
    | _ => false

/-! ### Rule engine (src/analyzer/engine.rs) -/

/-- Model of a registered `Rule`, reduced to what `execute_rules`
consumes: its id and its `check` operation.  `α` abstracts the AST
type; errors are modelled as strings. -/
structure MRule (α : Type) where
  id : String
  check : α → String → Except String (List Finding)

/-- Translation of `RuleEngine::execute_rules`: iterate the registered
rules in order, extend the accumulated findings on `Ok`, log-and-skip
on `Err`, and always return `Ok` with the accumulated findings. -/
def executeRules {α : Type} (rules : List (MRule α)) (ast : α) (filePath : String) :
    Except String (List Finding) :=
  Except.ok
    (rules.foldl
      (fun findings rule =>
        match rule.check ast filePath with
        | .ok ruleFindings => findings ++ ruleFindings
        | .error _ => findings)
      [])

/-- The findings a single rule contributes: its own on success, none on
failure. -/
def ruleContribution {α : Type} (ast : α) (filePath : String) (rule : MRule α) :
    List Finding :=
  match rule.check ast filePath with
  | .ok ruleFindings => ruleFindings
  | .error _ => []

/-! ### Declarative companions used in the statements below -/

/-- The node categories the inherent `AstQuery::uses_unsafe` keeps:
functions and impl functions with an `unsafe` signature, and blocks
with a top-level unsafe-block statement. -/
def usesUnsafeKeep (n : AstNode) : Bool :=
  match n.data with
  | .functionD f => f.sigUnsafety
  | .implFunctionD f => f.sigUnsafety
  | .blockD b => (RStmtList.toList b.stmts).any stmtIsUnsafeExpr
  | _ => false

/-- The node categories the trait `UnsafeCodeFilters::uses_unsafe`
keeps: functions and impl functions whose body contains unsafe code. -/
def usesUnsafeBodyKeep (n : AstNode) : Bool :=
  match n.data with
  | .functionD f => hasUnsafeInBlock f.body
  | .implFunctionD f => hasUnsafeInBlock f.body
  | _ => false

/-- A field counts as mutable when some `#[account(..)]` attribute's
token text contains `mut` (the `is_mutable` flag of the source,
restated as an `any`). -/
def fieldIsMutable (f : RField) : Bool :=
  f.attrs.any fun
    | .list p toks => p == "account" && strContains toks "mut"
    | .otherMeta => false

/-- A field carries a disambiguating constraint of its own when some
`#[account(..)]` attribute's token text contains one of the five
constraint markers (the `has_field_constraint` flag of the source,
restated as an `any`). -/
def fieldHasOwnConstraint (f : RField) : Bool :=
  f.attrs.any fun
    | .list p toks =>
      p == "account" &&
        (strContains toks "constraint" || strContains toks "seeds" ||
          strContains toks "bump" || strContains toks "!=" || strContains toks "key()")
    | .otherMeta => false

/-- The claim's notion of a safe divisor: a non-zero numeric literal,
or a variable previously bound by a `let` to a non-zero literal. -/
def divisorSafePerClaim (env : List String) : RExpr → Bool
  | .lit k => litTracksNonZero k
  | .path (some ident) => env.contains ident
  | _ => false

/-! ### Concrete instances used by the closed theorems below -/

def spanA : Span := ⟨1, 0, 1, 2⟩

def emptyBlk : RBlock := .mk spanA .nil

/-- A block whose single statement is an `unsafe { .. }` expression. -/
def unsafeBodyBlk : RBlock := .mk spanA (.cons (.exprS (.unsafeB emptyBlk)) .nil)

/-- `fn does_math() { unsafe { } }`: body uses unsafe, signature is
not `unsafe`. -/
def bodyUnsafeFn : RFn := .mk "does_math" true false unsafeBodyBlk spanA

/-- `pub unsafe fn raw() { }`: unsafe signature, clean body. -/
def sigUnsafeFn : RFn := .mk "raw" true true emptyBlk spanA

/-- `#[account(mut, seeds = [SEED], bump)] user_a` — mutable and
constrained by seeds/bump (no `constraint` keyword). -/
def dupFieldA : RField :=
  { ident := some "user_a",
    attrs := [RMeta.list "account" "mut , seeds = [SEED] , bump"],
    tyTokens := "Account < \x27info , User >" }

/-- `#[account(mut)] user_b` — mutable, no constraint anywhere. -/
def dupFieldB : RField :=
  { ident := some "user_b",
    attrs := [RMeta.list "account" "mut"],
    tyTokens := "Account < \x27info , User >" }

/-- Accounts struct with two mutable fields of which exactly one lacks
a disambiguating constraint. -/
def dupStructOneFree : RStruct :=
  { ident := "Ctx",
    attrs := [RMeta.list "derive" "Accounts"],
    fields := .named [dupFieldA, dupFieldB],
    span := spanA }

def pathX : RExpr := .path (some "x")

def pathY : RExpr := .path (some "y")

/-- The expression `x / (y + 1)`: the divisor is a parenthesised
non-subtraction binary expression. -/
def divByParen : RExpr :=
  .binary .div pathX (.paren (.binary .otherOp pathY (.lit (.int "1"))))

/-- `fn f(..) { x / (y + 1) }`. -/
def parenDivFn : RFn := .mk "f" true false (.mk spanA (.cons (.exprS divByParen) .nil)) spanA

/-- `fn g(..) { let z = 5; x / z }`. -/
def letBoundDivFn : RFn :=
  .mk "g" true false
    (.mk spanA
      (.cons (.localS (some "z") (some (.lit (.int "5"))))
        (.cons (.exprS (.binary .div pathX (.path (some "z")))) .nil)))
    spanA

/-- `fn h(x, y) { x / y }` with `y` untracked. -/
def paramDivFn : RFn :=
  .mk "h" true false (.mk spanA (.cons (.exprS (.binary .div pathX pathY)) .nil)) spanA

/-- `fn k(x) { x / 0 }`. -/
def zeroLitDivFn : RFn :=
  .mk "k" true false
    (.mk spanA (.cons (.exprS (.binary .div pathX (.lit (.int "0")))) .nil)) spanA

/-- `pub authority: AccountInfo<'info>` with no attribute. -/
def authorityField : RField :=
  { ident := some "authority", attrs := [], tyTokens := "AccountInfo < \x27info >" }

/-- A struct containing an unchecked `AccountInfo` field but carrying
no `#[derive(Accounts)]` attribute. -/
def noDeriveStruct : RStruct :=
  { ident := "Vulnerable", attrs := [], fields := .named [authorityField], span := spanA }

/-- The same struct with the `Accounts` derive. -/
def deriveStruct : RStruct :=
  { ident := "Vulnerable",
    attrs := [RMeta.list "derive" "Accounts"],
    fields := .named [authorityField],
    span := spanA }

/-- A function node with a real span into `witnessExtractor`'s source. -/
def witnessFn : RFn := .mk "handler" true false emptyBlk ⟨1, 4, 1, 5⟩

/-- A query holding a spanned function node and an `Other` node. -/
def witnessQuery : AstQuery :=
  ⟨[AstNode.fromFunction witnessFn, ⟨NodeType.otherT, NodeData.otherD, none⟩]⟩

def witnessExtractor : SpanExtractor := ⟨"let a = 1;", "m.rs"⟩

/-- The findings produced over `witnessQuery` (checked against the
implementation in `C10_witness`). -/
def witnessFindings : List Finding :=
  [{ description := "T in \x27handler\x27. D",
     severity := Severity.high,
     location := { file := "m.rs", line := 1, column := some 4,
                   endLine := some 1, endColumn := some 5 },
     codeSnippet := some "a" },
   { description := "T: D",
     severity := Severity.high,
     location := fallbackLocation "m.rs",
     codeSnippet := some "..." }]

/-! ### Helper lemmas -/

/-- The inherent `uses_unsafe` push loop is the filter by
`usesUnsafeKeep`. -/
theorem usesUnsafeGoFilter : ∀ ns : List AstNode, usesUnsafeGo ns = ns.filter usesUnsafeKeep
  | [] => rfl
  | n :: t => by
    have ih := usesUnsafeGoFilter t
    cases hd : n.data <;>
      simp [usesUnsafeGo, usesUnsafeKeep, List.filter_cons, hd, ih]

/-- The trait `uses_unsafe` push loop is the filter by
`usesUnsafeBodyKeep`. -/
theorem usesUnsafeBodyGoFilter :
    ∀ ns : List AstNode, usesUnsafeBodyGo ns = ns.filter usesUnsafeBodyKeep
  | [] => rfl
  | n :: t => by
    have ih := usesUnsafeBodyGoFilter t
    cases hd : n.data <;>
      simp [usesUnsafeBodyGo, usesUnsafeBodyKeep, List.filter_cons, hd, ih]

/-! ### C9 -/

/-- C9: for every query q, q.not() returns a query whose result set is
empty, regardless of q's results. -/
theorem C9_not_empty (q : AstQuery) : (AstQuery.not q).results = [] := rfl

/-! ### C7 -/

/-- C7: the snippet extractor returns the documented sentinels for a
zero line and for line indices beyond the line count, but on the
malformed single-line span (1,5)-(1,2) over the 8-character source
`abcdefgh` it reaches the Rust slice `line[5..2]`, which panics
(modelled by `none`): the never-panics claim fails on that input. -/
theorem C7_panic_eval :
    spanToSnippet "abcdefgh" ⟨0, 0, 1, 2⟩ = some snippetUnavailable ∧
    spanToSnippet "abcdefgh" ⟨1, 0, 3, 2⟩ = some snippetOutOfBounds ∧
    spanToSnippet "abcdefgh" ⟨1, 5, 1, 2⟩ = none := by decide

/-! ### C1 -/

/-- C1 counterexample: `does_math` has a normal (non-unsafe) signature
and a body consisting of an unsafe block, yet the `uses_unsafe` filter
that the rule invokes (the inherent `AstQuery::uses_unsafe`) drops it,
where the claim predicts it is kept. -/
theorem C1_counterexample :
    (AstQuery.usesUnsafe ⟨[AstNode.fromFunction bodyUnsafeFn]⟩).results = [] ∧
    RFn.sigUnsafety bodyUnsafeFn = false ∧
    hasUnsafeInBlock (RFn.body bodyUnsafeFn) = true :=
  ⟨rfl, rfl, rfl⟩

/-- C1 amended: the inherent `AstQuery::uses_unsafe` — the method a
`query.uses_unsafe()` call resolves to — keeps a function or
impl-function node exactly when its signature is marked unsafe (the
body is not inspected), while the shadowed trait method
`UnsafeCodeFilters::uses_unsafe` keeps such a node exactly when its
body contains unsafe code (the signature is not inspected). -/
theorem C1_amended :
    (∀ ns : List AstNode,
      (AstQuery.usesUnsafe ⟨ns⟩).results = ns.filter usesUnsafeKeep) ∧
    (∀ f : RFn, usesUnsafeKeep (AstNode.fromFunction f) = f.sigUnsafety) ∧
    (∀ f : RFn, usesUnsafeKeep (AstNode.fromImplFunction f) = f.sigUnsafety) ∧
    (∀ ns : List AstNode,
      (UnsafeCodeFilters.usesUnsafe ⟨ns⟩).results = ns.filter usesUnsafeBodyKeep) ∧
    (∀ f : RFn, usesUnsafeBodyKeep (AstNode.fromFunction f) = hasUnsafeInBlock f.body) ∧
    (∀ f : RFn, usesUnsafeBodyKeep (AstNode.fromImplFunction f) = hasUnsafeInBlock f.body) :=
  ⟨fun ns => usesUnsafeGoFilter ns,
   fun _ => rfl, fun _ => rfl,
   fun ns => usesUnsafeBodyGoFilter ns,
   fun _ => rfl, fun _ => rfl⟩

/-! ### C8 -/

/-- C8 counterexample: with equal start and end columns on the same
line, `format_location` still renders the `-{end_col}` suffix, where
the claim predicts the bare `file:line:col` form. -/
theorem C8_counterexample :
    Location.formatLocation ⟨"f", 1, some 5, some 1, some 5⟩ = "f:1:5-5" ∧
    "f:1:5-5" ≠ "f:1:5" := by decide

/-- C8 amended: `format_location` renders `file:line:col-endline:endcol`
when all of column, end line and end column are present and the end
line differs; `file:line:col-endcol` whenever the column and end column
are present and the end line is absent or equal to the start line, even
when the end column equals the start column; `file:line:col` when the
column is present but the end column absent; and `file:line` without a
column. -/
theorem C8_amended (loc : Location) :
    (∀ c el ec, loc.column = some c → loc.endLine = some el → loc.endColumn = some ec →
      el ≠ loc.line →
      Location.formatLocation loc =
        loc.file ++ ":" ++ toString loc.line ++ ":" ++ toString c ++ "-" ++
          toString el ++ ":" ++ toString ec) ∧
    (∀ c ec, loc.column = some c → loc.endColumn = some ec →
      (loc.endLine = none ∨ loc.endLine = some loc.line) →
      Location.formatLocation loc =
        loc.file ++ ":" ++ toString loc.line ++ ":" ++ toString c ++ "-" ++ toString ec) ∧
    (∀ c, loc.column = some c → loc.endColumn = none →
      Location.formatLocation loc =
        loc.file ++ ":" ++ toString loc.line ++ ":" ++ toString c) ∧
    (loc.column = none →
      Location.formatLocation loc = loc.file ++ ":" ++ toString loc.line) := by
  obtain ⟨f, l, c, el, ec⟩ := loc
  refine ⟨?_, ?_, ?_, ?_⟩
  · rintro c0 el0 ec0 rfl rfl rfl hne
    simp [Location.formatLocation, hne]
  · rintro c0 ec0 rfl rfl h
    rcases h with h | h <;> simp only at h <;> subst h <;>
      simp [Location.formatLocation]
  · rintro c0 rfl rfl
    cases el <;> simp [Location.formatLocation]
  · rintro rfl
    simp [Location.formatLocation]

/-- C8 witness: the four rendering forms at concrete locations. -/
theorem C8_witness :
    Location.formatLocation ⟨"a.rs", 2, some 3, some 5, some 7⟩ = "a.rs:2:3-5:7" ∧
    Location.formatLocation ⟨"a.rs", 2, some 3, some 2, some 7⟩ = "a.rs:2:3-7" ∧
    Location.formatLocation ⟨"a.rs", 2, some 3, none, some 7⟩ = "a.rs:2:3-7" ∧
    Location.formatLocation ⟨"a.rs", 2, some 3, some 9, none⟩ = "a.rs:2:3" ∧
    Location.formatLocation ⟨"a.rs", 2, none, some 9, some 7⟩ = "a.rs:2" :=
  ⟨(C8_amended _).1 3 5 7 rfl rfl rfl (by decide),
   (C8_amended _).2.1 3 7 rfl rfl (Or.inr rfl),
   (C8_amended _).2.1 3 7 rfl rfl (Or.inl rfl),
   (C8_amended _).2.2.1 3 rfl rfl,
   (C8_amended _).2.2.2 rfl⟩

/-! ### C5 -/

/-- The folding loop of `execute_rules`, related to per-rule
contributions. -/
theorem executeRulesFold {α : Type} (ast : α) (filePath : String) :
    ∀ (rules : List (MRule α)) (acc : List Finding),
      rules.foldl
        (fun findings rule =>
          match rule.check ast filePath with
          | .ok ruleFindings => findings ++ ruleFindings
          | .error _ => findings)
        acc
      = acc ++ (rules.map (ruleContribution ast filePath)).flatten
  | [], acc => by simp
  | r :: rest, acc => by
    have ih := executeRulesFold ast filePath rest
    simp only [List.foldl_cons, List.map_cons, List.flatten_cons]
    cases h : r.check ast filePath <;>
      simp [ih, ruleContribution, h, List.append_assoc]

/-- C5: `execute_rules` invokes every registered rule in order and
returns `Ok` with the concatenation of the findings of the rules whose
`check` succeeded; a failing rule contributes the empty list and never
prevents the remaining rules' findings from being returned. -/
theorem C5_execute_rules {α : Type} (rules : List (MRule α)) (ast : α) (filePath : String) :
    executeRules rules ast filePath =
      Except.ok (rules.map (ruleContribution ast filePath)).flatten := by
  unfold executeRules
  rw [executeRulesFold ast filePath rules []]
  rfl

/-! ### C6 -/

/-- C6 counterexample: for the one-line source `ab` and the same-line
span with columns `[1, 5)`, the claim predicts the clamped substring
`b`, but `span_to_snippet` returns the whole line `ab`. -/
theorem C6_counterexample :
    spanToSnippet "ab" ⟨1, 1, 1, 5⟩ = some "ab" ∧
    strSlice "ab" 1 (min 5 (String.length "ab")) = "b" ∧
    ("ab" : String) ≠ "b" := by decide

/-- C6 amended: for a span on a single existing source line,
`span_to_snippet` returns the substring `[start_col, end_col)` of that
line when `start_col` is strictly inside the line and `end_col` is at
most the line length (assuming the span is not reversed); in every
other case — either bound beyond the line — it returns the whole line
rather than a clamped substring. -/
theorem C6_amended (src : String) (sp : Span) (line : String)
    (hline : sp.endLine = sp.startLine)
    (h1 : 1 ≤ sp.startLine)
    (hget : (rustLines src)[sp.startLine - 1]? = some line) :
    (sp.startColumn < line.length → sp.endColumn ≤ line.length →
      sp.startColumn ≤ sp.endColumn →
      spanToSnippet src sp = some (strSlice line sp.startColumn sp.endColumn)) ∧
    (¬(sp.startColumn < line.length ∧ sp.endColumn ≤ line.length) →
      spanToSnippet src sp = some line) := by
  have hlt : sp.startLine - 1 < (rustLines src).length := by
    by_contra hge
    rw [List.getElem?_eq_none (Nat.le_of_not_lt hge)] at hget
    exact Option.noConfusion hget
  have hcond1 : ¬(sp.startLine = 0 ∨ sp.endLine = 0) := by omega
  have hcond2 : ¬((rustLines src).length < sp.startLine ∨
      (rustLines src).length < sp.endLine) := by omega
  have hidx : min (sp.endLine - 1) ((rustLines src).length - 1) = sp.startLine - 1 := by
    omega
  constructor
  · intro hc1 hc2 hc3
    simp only [spanToSnippet]
    rw [if_neg hcond1, if_neg hcond2, hidx, if_pos rfl]
    simp only [hget]
    rw [if_pos ⟨hc1, hc2⟩]
    rw [Nat.min_eq_left hc2]
    unfold slice?
    rw [if_pos ⟨hc3, hc2⟩]
    rfl
  · intro hc
    simp only [spanToSnippet]
    rw [if_neg hcond1, if_neg hcond2, hidx, if_pos rfl]
    simp only [hget]
    rw [if_neg hc]

/-- C6 witness: the in-range case slices exactly, the out-of-range case
returns the whole line. -/
theorem C6_witness :
    spanToSnippet "hello world" ⟨1, 0, 1, 5⟩ = some "hello" ∧
    spanToSnippet "ab" ⟨1, 1, 1, 99⟩ = some "ab" :=
  ⟨(C6_amended "hello world" ⟨1, 0, 1, 5⟩ "hello world" rfl (by decide) (by decide)).1
      (by decide) (by decide) (by decide),
   (C6_amended "ab" ⟨1, 1, 1, 99⟩ "ab" rfl (by decide) (by decide)).2 (by decide)⟩

/-! ### C10 -/

/-- Successful option-threaded traversal: one output per input, in
order. -/
theorem optionTraverseSome {α β : Type} (f : α → Option β) :
    ∀ (l : List α) (out : List β), optionTraverse f l = some out →
      out.length = l.length ∧
      ∀ i (hi : i < out.length) (hl : i < l.length),
        f (l.get ⟨i, hl⟩) = some (out.get ⟨i, hi⟩)
  | [], out, h => by
    simp only [optionTraverse, Option.some.injEq] at h
    subst h
    exact ⟨rfl, fun i hi _ => absurd hi (by simp)⟩
  | a :: t, out, h => by
    revert h
    unfold optionTraverse
    cases hfa : f a with
    | none => intro h; exact absurd h (by simp)
    | some b =>
      cases hrest : optionTraverse f t with
      | none => intro h; exact absurd h (by simp)
      | some bs =>
        intro h
        simp only [Option.some.injEq] at h
        subst h
        obtain ⟨hlen, hidx⟩ := optionTraverseSome f t bs hrest
        refine ⟨by simp [hlen], ?_⟩
        intro i hi hl
        cases i with
        | zero => simpa using hfa
        | succ j =>
          simpa using hidx j (by simpa using hi) (by simpa using hl)

/-- C10: both finding conversions produce exactly one finding per query
result, in result order, each carrying the argument severity; for an
`Other`-category node the span-aware conversion uses the fallback
location `line 1, no column` and the node's placeholder snippet, and
the plain conversion uses the fallback location and placeholder
snippet for every node. -/
theorem C10_findings (q : AstQuery) (sev : Severity) (title descr msg filePath : String)
    (ex : SpanExtractor) (fs : List Finding)
    (h : AstQuery.toFindingsWithSpanExtractor q sev title descr filePath ex = some fs) :
    (fs.length = q.results.length ∧
      ∀ i (hf : i < fs.length) (hq : i < q.results.length),
        (fs.get ⟨i, hf⟩).severity = sev ∧
        ((q.results.get ⟨i, hq⟩).data = NodeData.otherD →
          (fs.get ⟨i, hf⟩).location = fallbackLocation filePath ∧
          (fs.get ⟨i, hf⟩).codeSnippet = some (AstNode.snippet (q.results.get ⟨i, hq⟩)))) ∧
    ((AstQuery.toFindings q sev msg filePath).length = q.results.length ∧
      ∀ i (ht : i < (AstQuery.toFindings q sev msg filePath).length)
        (hq : i < q.results.length),
        ((AstQuery.toFindings q sev msg filePath).get ⟨i, ht⟩).severity = sev ∧
        ((AstQuery.toFindings q sev msg filePath).get ⟨i, ht⟩).location
          = fallbackLocation filePath ∧
        ((AstQuery.toFindings q sev msg filePath).get ⟨i, ht⟩).codeSnippet
          = some (AstNode.snippet (q.results.get ⟨i, hq⟩))) := by
  constructor
  · obtain ⟨hlen, hidx⟩ := optionTraverseSome _ _ _ h
    refine ⟨hlen, ?_⟩
    intro i hf hq
    have hnode := hidx i hf hq
    revert hnode
    cases hsp : NodeData.spanOf (q.results.get ⟨i, hq⟩).data with
    | none =>
      simp only [hsp, Option.map]
      intro hnode
      have hval := (Option.some.injEq _ _).mp hnode
      constructor
      · rw [← hval]
      · intro _
        rw [← hval]
        exact ⟨rfl, rfl⟩
    | some sp =>
      cases hsn : SpanExtractor.extractSnippet ex sp with
      | none =>
        simp only [hsp, hsn, Option.map]
        intro hnode
        exact Option.noConfusion hnode
      | some snip =>
        simp only [hsp, hsn, Option.map]
        intro hnode
        have hval := (Option.some.injEq _ _).mp hnode
        constructor
        · rw [← hval]
        · intro hother
          rw [hother] at hsp
          exact Option.noConfusion hsp
  · refine ⟨by simp [AstQuery.toFindings], ?_⟩
    intro i ht hq
    simp [AstQuery.toFindings, List.getElem_map]

/-- C10 witness: over a query holding one spanned function node and one
`Other` node, the conversion yields exactly `witnessFindings`: two
findings in order, both `High`, the second at the fallback location
with the placeholder snippet. -/
theorem C10_witness :
    witnessFindings.length = witnessQuery.results.length ∧
    (witnessFindings.get ⟨1, by decide⟩).severity = Severity.high ∧
    (witnessFindings.get ⟨1, by decide⟩).location = fallbackLocation "m.rs" ∧
    (witnessFindings.get ⟨1, by decide⟩).codeSnippet
      = some (AstNode.snippet (witnessQuery.results.get ⟨1, by decide⟩)) := by
  have h := C10_findings witnessQuery Severity.high "T" "D" "msg" "m.rs" witnessExtractor
    witnessFindings (by decide)
  have h2 := (h.1.2 1 (by decide) (by decide))
  exact ⟨h.1.1, h2.1, (h2.2 rfl).1, (h2.2 rfl).2⟩

/-! ### C4 -/

/-- C4 counterexample: a struct with an `AccountInfo` field, no signer
attribute and no Signer type, but without a `derive(Accounts)`
attribute, is not flagged — `has_missing_signer_checks` first requires
the Accounts derive, which the claim does not. -/
theorem C4_counterexample :
    hasMissingSignerChecks noDeriveStruct = false ∧
    classifyAnchorTy (RField.tyTokens authorityField) = some AnchorTy.accountInfo ∧
    hasSignerConstraint (RField.attrs authorityField) = false := by decide

/-- C4 amended: for a struct carrying the Accounts derive whose fields
all parse as Anchor account types, the check flags the struct exactly
when some parsed field is an `AccountInfo`/`UncheckedAccount`/
`SystemAccount` without a signer constraint; fields of type `Signer`,
fields of type `AccountLoader`, and fields with a signer constraint are
never in that vulnerable set. -/
theorem C4_amended (s : RStruct) (fields : List RField)
    (anchorFields : List (AnchorTy × Bool))
    (hacc : isAccountsStruct s = true)
    (hf : s.fields = RFields.named fields)
    (hconv : convertFieldsToAnchor fields = some anchorFields) :
    hasMissingSignerChecks s = anchorFields.any anchorFieldVulnerable ∧
    (∀ af ∈ anchorFields, af.1 = AnchorTy.accountLoader → anchorFieldVulnerable af = false) ∧
    (∀ af ∈ anchorFields, af.1 = AnchorTy.signerTy → anchorFieldVulnerable af = false) ∧
    (∀ af ∈ anchorFields, af.2 = true → anchorFieldVulnerable af = false) := by
  refine ⟨?_, ?_, ?_, ?_⟩
  · unfold hasMissingSignerChecks
    rw [hacc, hf]
    simp only [hconv, Bool.not_true, Bool.false_eq_true, if_false]
  · rintro ⟨ty, sgn⟩ _ hty
    subst hty
    simp [anchorFieldVulnerable]
  · rintro ⟨ty, sgn⟩ _ hty
    subst hty
    simp [anchorFieldVulnerable]
  · rintro ⟨ty, sgn⟩ _ hsgn
    subst hsgn
    simp [anchorFieldVulnerable]

/-- C4 witness: the derive-bearing struct with the unchecked
`AccountInfo` field is flagged. -/
theorem C4_witness : hasMissingSignerChecks deriveStruct = true := by
  have h := C4_amended deriveStruct [authorityField] [(AnchorTy.accountInfo, false)]
    (by decide) rfl (by decide)
  rw [h.1]
  decide


/-! ### C2 -/

/-- The attribute fold of the duplicate-mutable-accounts filter
computes the two `any`-style flags. -/
theorem fieldFlagsAux :
    ∀ (attrs : List RMeta) (b : Bool × Bool),
      attrs.foldl fieldFlagsStep b
      = (b.1 ||
          attrs.any (fun m =>
            match m with
            | .list p toks => p == "account" && strContains toks "mut"
            | .otherMeta => false),
         b.2 ||
          attrs.any (fun m =>
            match m with
            | .list p toks =>
              p == "account" &&
                (strContains toks "constraint" || strContains toks "seeds" ||
                  strContains toks "bump" || strContains toks "!=" || strContains toks "key()")
            | .otherMeta => false))
  | [], b => by simp
  | .otherMeta :: rest, b => by
    rw [List.foldl_cons]
    have hstep : fieldFlagsStep b RMeta.otherMeta = b := rfl
    rw [hstep, fieldFlagsAux rest b]
    simp
  | .list p toks :: rest, b => by
    rw [List.foldl_cons]
    cases hp : p == "account" with
    | false =>
      have hstep : fieldFlagsStep b (RMeta.list p toks) = b := by
        simp [fieldFlagsStep, hp]
      rw [hstep, fieldFlagsAux rest b]
      simp [hp]
    | true =>
      have hstep : fieldFlagsStep b (RMeta.list p toks)
          = (b.1 || strContains toks "mut",
             b.2 || strContains toks "constraint" || strContains toks "seeds" ||
               strContains toks "bump" || strContains toks "!=" || strContains toks "key()") := by
        simp [fieldFlagsStep, hp]
      rw [hstep, fieldFlagsAux rest _]
      simp [hp, Bool.or_assoc]

/-- `fieldFlags` in terms of the declarative per-field predicates. -/
theorem fieldFlagsSpec (f : RField) :
    fieldFlags f = (fieldIsMutable f, fieldHasOwnConstraint f) := by
  unfold fieldFlags fieldIsMutable fieldHasOwnConstraint
  rw [fieldFlagsAux f.attrs (false, false)]
  simp

/-- The counting fold of the duplicate-mutable-accounts filter counts
mutable fields and constrained mutable fields. -/
theorem dupCountFold (ac : List String) :
    ∀ (fields : List RField) (c : Nat × Nat),
      fields.foldl (dupCountStep ac) c
      = (c.1 + fields.countP (fun f => fieldIsMutable f),
         c.2 + fields.countP (fun f => fieldIsMutable f && fieldConstrainedFinal ac f))
  | [], c => by simp
  | f :: rest, c => by
    rw [List.foldl_cons]
    cases hm : fieldIsMutable f with
    | false =>
      have hstep : dupCountStep ac c f = c := by
        simp [dupCountStep, fieldFlagsSpec, hm]
      rw [hstep, dupCountFold ac rest c]
      simp [List.countP_cons, hm]
    | true =>
      cases hc : fieldConstrainedFinal ac f with
      | false =>
        have hstep : dupCountStep ac c f = (c.1 + 1, c.2) := by
          simp [dupCountStep, fieldFlagsSpec, hm, hc]
        rw [hstep, dupCountFold ac rest _]
        simp [List.countP_cons, hm, hc, Prod.ext_iff]
        omega
      | true =>
        have hstep : dupCountStep ac c f = (c.1 + 1, c.2 + 1) := by
          simp [dupCountStep, fieldFlagsSpec, hm, hc]
        rw [hstep, dupCountFold ac rest _]
        simp [List.countP_cons, hm, hc, Prod.ext_iff]
        omega

/-- Two `countP`s differ exactly when some element satisfies the first
predicate but not the second. -/
theorem countPNeAny (p q : α → Bool) :
    ∀ l : List α,
      (l.countP (fun a => p a && q a) ≠ l.countP p ↔
        l.any (fun a => p a && !q a) = true)
  | [] => by simp
  | a :: t => by
    have ih := countPNeAny p q t
    have hle : t.countP (fun a => p a && q a) ≤ t.countP p :=
      List.countP_mono_left fun a _ hpa => by
        simp only [Bool.and_eq_true] at hpa
        exact hpa.1
    cases hp : p a with
    | false => simp [List.countP_cons, List.any_cons, hp, ih]
    | true =>
      cases hq : q a with
      | true => simp [List.countP_cons, List.any_cons, hp, hq, ih]
      | false =>
        have e1 : (a :: t).countP (fun x => p x && q x) = t.countP (fun x => p x && q x) := by
          simp [List.countP_cons, hp, hq]
        have e2 : (a :: t).countP p = t.countP p + 1 := by
          simp [List.countP_cons, hp]
        have e3 : (a :: t).any (fun x => p x && !q x) = true := by
          simp [List.any_cons, hp, hq]
        rw [e1, e2, e3]
        exact iff_of_true (by omega) rfl

/-- C2 counterexample: `dupStructOneFree` has two mutable fields but
only ONE of them (`user_b`) lacks a disambiguating constraint
(`user_a` has `seeds`/`bump`), so the claim predicts the struct is not
kept; the filter keeps it. -/
theorem C2_counterexample :
    hasDuplicateMutableAccountsStruct dupStructOneFree = true ∧
    [dupFieldA, dupFieldB].countP
      (fun f => fieldIsMutable f &&
        !fieldConstrainedFinal (collectConstraints [dupFieldA, dupFieldB]) f) = 1 := by
  decide

/-- C2 amended: the filter keeps a named-fields struct exactly when it
has at least two mutable fields AND at least one mutable field lacks a
disambiguating constraint (its own `constraint`/`seeds`/`bump`/`!=`/
`key()` marker, or a sibling constraint naming it together with `!=`);
two unconstrained mutable fields are not required. -/
theorem C2_amended (ident : String) (attrs : List RMeta) (sp : Span) (fields : List RField) :
    hasDuplicateMutableAccountsStruct ⟨ident, attrs, RFields.named fields, sp⟩
      = (decide (2 ≤ fields.countP (fun f => fieldIsMutable f)) &&
         fields.any (fun f =>
           fieldIsMutable f && !fieldConstrainedFinal (collectConstraints fields) f)) := by
  simp only [hasDuplicateMutableAccountsStruct]
  rw [dupCountFold (collectConstraints fields) fields (0, 0)]
  simp only [Nat.zero_add]
  have h := countPNeAny (fun f => fieldIsMutable f)
    (fun f => fieldConstrainedFinal (collectConstraints fields) f) fields
  have hbne :
      ((fields.countP (fun f => fieldIsMutable f)) !=
        (fields.countP (fun f => fieldIsMutable f &&
          fieldConstrainedFinal (collectConstraints fields) f)))
      = fields.any (fun f =>
          fieldIsMutable f && !fieldConstrainedFinal (collectConstraints fields) f) := by
    cases hany : fields.any (fun f =>
        fieldIsMutable f && !fieldConstrainedFinal (collectConstraints fields) f) with
    | true =>
      have hne := h.mpr hany
      rw [bne_iff_ne]
      exact Ne.symm hne
    | false =>
      have heq : fields.countP (fun f => fieldIsMutable f &&
          fieldConstrainedFinal (collectConstraints fields) f)
          = fields.countP (fun f => fieldIsMutable f) := by
        by_contra hne
        rw [h.mp hne] at hany
        exact Bool.noConfusion hany
      rw [heq, bne_self_eq_false]
  rw [hbne]

/-! ### C3 -/

/-- `dzLocalState` never changes the found flag. -/
theorem dzLocalFound (st : DzState) (pat : Option String) (init : Option RExpr) :
    (dzLocalState st pat init).found = st.found := by
  unfold dzLocalState
  split
  · split <;> rfl
  · rfl

/-- The safe map produced by `dzLocalState` depends only on the
incoming safe map. -/
theorem dzLocalSafeCongr (st : DzState) (b : Bool) (pat : Option String)
    (init : Option RExpr) :
    (dzLocalState { found := b, safe := st.safe } pat init).safe
      = (dzLocalState st pat init).safe := by
  unfold dzLocalState
  split
  · split <;> rfl
  · rfl

mutual
/-- The finder's traversal of an expression, explained by the collected
divisors: the final flag adds "some collected divisor is potentially
dangerous in its recorded scope" to the incoming flag, and the final
safe map is the collected one. -/
theorem dzExprSpec : ∀ (e : RExpr) (st : DzState),
    dzExpr st e
      = ⟨st.found || ((dzCollectExpr st.safe e).2.any fun p => isPotentiallyDangerous p.1 p.2),
         (dzCollectExpr st.safe e).1⟩
  | .lit k, st => by simp [dzExpr, dzCollectExpr]
  | .path i, st => by simp [dzExpr, dzCollectExpr]
  | .call f args, st => by
    have h1 := dzExprSpec f st
    simp only [dzExpr, dzCollectExpr]
    rw [h1]
    rw [dzExprListSpec args _]
    simp [List.any_append, Bool.or_assoc]
  | .methodCall recv m args, st => by
    have h1 := dzExprSpec recv st
    simp only [dzExpr, dzCollectExpr]
    rw [h1]
    rw [dzExprListSpec args _]
    simp [List.any_append, Bool.or_assoc]
  | .fieldAcc base, st => dzExprSpec base st
  | .paren e, st => dzExprSpec e st
  | .binary op lhs rhs, st => by
    have hst1 :
        (if op == BinOp.div && isPotentiallyDangerous st.safe rhs then
          { st with found := true } else st)
        = ⟨st.found || (op == BinOp.div && isPotentiallyDangerous st.safe rhs), st.safe⟩ := by
      cases hcond : op == BinOp.div && isPotentiallyDangerous st.safe rhs <;>
        simp [hcond]
    have hhere :
        ((if op = BinOp.div then [(st.safe, rhs)] else []).any fun p =>
          isPotentiallyDangerous p.1 p.2)
        = (op == BinOp.div && isPotentiallyDangerous st.safe rhs) := by
      by_cases hop : op = BinOp.div <;> simp [hop]
    simp only [dzExpr, dzCollectExpr]
    rw [hst1]
    rw [dzExprSpec lhs _]
    rw [dzExprSpec rhs _]
    simp [List.any_append, hhere, Bool.or_assoc]
  | .unsafeB body, st => dzBlockSpec body st
  | .unary e, st => dzExprSpec e st
  | .otherE, st => by simp [dzExpr, dzCollectExpr]

theorem dzExprListSpec : ∀ (es : RExprList) (st : DzState),
    dzExprList st es
      = ⟨st.found ||
          ((dzCollectExprList st.safe es).2.any fun p => isPotentiallyDangerous p.1 p.2),
         (dzCollectExprList st.safe es).1⟩
  | .nil, st => by simp [dzExprList, dzCollectExprList]
  | .cons e t, st => by
    have h1 := dzExprSpec e st
    simp only [dzExprList, dzCollectExprList]
    rw [h1]
    rw [dzExprListSpec t _]
    simp [List.any_append, Bool.or_assoc]

theorem dzStmtSpec : ∀ (s : RStmt) (st : DzState),
    dzStmt st s
      = ⟨st.found || ((dzCollectStmt st.safe s).2.any fun p => isPotentiallyDangerous p.1 p.2),
         (dzCollectStmt st.safe s).1⟩
  | .localS pat init, st => by
    cases init with
    | none =>
      simp only [dzStmt, dzCollectStmt, List.any_nil, Bool.or_false]
      rw [dzLocalSafeCongr st false pat none, ← dzLocalFound st pat none]
    | some e =>
      have h1 := dzExprSpec e (dzLocalState st pat (some e))
      simp only [dzStmt, dzCollectStmt]
      rw [h1, dzLocalFound, dzLocalSafeCongr st false pat (some e)]
  | .exprS e, st => dzExprSpec e st
  | .itemFnS (.mk _i _p _u body _sp), st => dzBlockSpec body st
  | .otherS, st => by simp [dzStmt, dzCollectStmt]

theorem dzStmtListSpec : ∀ (ss : RStmtList) (st : DzState),
    dzStmtList st ss
      = ⟨st.found ||
          ((dzCollectStmtList st.safe ss).2.any fun p => isPotentiallyDangerous p.1 p.2),
         (dzCollectStmtList st.safe ss).1⟩
  | .nil, st => by simp [dzStmtList, dzCollectStmtList]
  | .cons s t, st => by
    have h1 := dzStmtSpec s st
    simp only [dzStmtList, dzCollectStmtList]
    rw [h1]
    rw [dzStmtListSpec t _]
    simp [List.any_append, Bool.or_assoc]

theorem dzBlockSpec : ∀ (b : RBlock) (st : DzState),
    dzBlock st b
      = ⟨st.found || ((dzCollectBlock st.safe b).2.any fun p => isPotentiallyDangerous p.1 p.2),
         (dzCollectBlock st.safe b).1⟩
  | .mk _sp stmts, st => dzStmtListSpec stmts st
end

/-- C3 counterexample: in `fn f(..) { x / (y + 1) }` the divisor
`(y + 1)` is neither a non-zero literal nor a let-bound variable, so
the claim predicts the function is flagged; the finder classifies a
parenthesised expression as not dangerous and does not flag it. -/
theorem C3_counterexample :
    fnHasUnsafeDivisions parenDivFn = false ∧
    (fnDivisors parenDivFn).any (fun p => !(divisorSafePerClaim p.1 p.2)) = true := by
  decide

/-- C3 amended: a function is flagged exactly when some division in its
body has a divisor that `is_potentially_dangerous` accepts under the
safe variables tracked at that point — zero literals, untracked or
multi-segment paths, calls, field accesses and subtractions; all other
divisor forms (parenthesised expressions, method calls, non-subtraction
binary operators, non-numeric literals) are treated as safe.  The
spec's three examples behave as claimed. -/
theorem C3_amended :
    (∀ f : RFn, fnHasUnsafeDivisions f
        = (fnDivisors f).any fun p => isPotentiallyDangerous p.1 p.2) ∧
    fnHasUnsafeDivisions letBoundDivFn = false ∧
    fnHasUnsafeDivisions paramDivFn = true ∧
    fnHasUnsafeDivisions zeroLitDivFn = true := by
  refine ⟨?_, by decide, by decide, by decide⟩
  intro f
  unfold fnHasUnsafeDivisions fnDivisors
  rw [dzBlockSpec f.body ⟨false, []⟩]
  simp
